import Mathlib

/-!
Verification of the LidarSetUp repository (three near-duplicate polar LiDAR
visualizer scripts) against its natural-language specification.

The Python code is shallowly embedded:
  - Python floats are modelled as exact values of type `PyFloat`
    (a rational number, an infinity, or NaN);
  - strings are `List Char`, with Python `str.split`, `str.strip`,
    `str.rstrip` and `float()` translated char by char;
  - exceptions are `Except PyExc` values;
  - the numpy buffer `self.distances` is a `List PyFloat` (numpy fills it
    with NaN, so NaN is the "absent" sentinel, exactly as in the code).
-/

namespace Lidar

/-- Model of a Python float value: an exact rational, a signed infinity or
NaN.  Rational arithmetic abstracts binary64 arithmetic except where a
claim is specifically about rounding (see `flRound` below). -/
inductive PyFloat where
  | finite (q : ℚ)
  | inf (neg : Bool)
  | nan
  deriving DecidableEq, Repr

/-- `np.isnan` / `math.isnan`. -/
def PyFloat.isNan : PyFloat → Bool
  | .nan => true
  | _ => false

/-- Python comparison `d <= c` for a float `d` against a finite constant
`c` (NaN compares false, `-inf <= c` is true, `+inf <= c` is false). -/
def pyLe : PyFloat → ℚ → Bool
  | .nan, _ => false
  | .inf neg, _ => neg
  | .finite q, c => q ≤ c

/-- Python comparison `c <= d` for a finite constant `c` against a float
`d` (NaN compares false). -/
def pyGe : PyFloat → ℚ → Bool
  | .nan, _ => false
  | .inf neg, _ => !neg
  | .finite q, c => c ≤ q

/-- The Python exceptions relevant to this code base.  `int(round(x))`
raises `ValueError` when `x` is NaN and `OverflowError` when `x` is
infinite; `float(s)` raises `ValueError`; an out-of-range list index
raises `IndexError`. -/
inductive PyExc where
  | valueError
  | overflowError
  deriving DecidableEq, Repr

/-! ## Python string primitives -/

/-- The whitespace characters stripped by Python `str.strip()` (ASCII
fragment; the source lines contain only plain spaces). -/
def pyWS (c : Char) : Bool :=
  c = ' ' ∨ c = '\t' ∨ c = '\n' ∨ c = '\r' ∨ c = '\x0b' ∨ c = '\x0c'

/-- ASCII lower-casing, as used by `float()` to recognise `nan`, `inf`,
`infinity` case-insensitively. -/
def lowerChar (c : Char) : Char :=
  if 'A' ≤ c ∧ c ≤ 'Z' then Char.ofNat (c.toNat + 32) else c

/-- Python `s.split(sep)` for a one-character separator: splits at every
occurrence, keeping empty pieces; on a string without the separator it
returns the one-element list `[s]`. -/
def pySplit (sep : Char) : List Char → List (List Char)
  | [] => [[]]
  | c :: cs =>
    if c = sep then [] :: pySplit sep cs
    else
      match pySplit sep cs with
      | r :: rs => (c :: r) :: rs
      | [] => [[c]]

/-- Remove trailing characters satisfying `p` (helper for `strip` and
`rstrip`). -/
def pyRstripP (p : Char → Bool) (s : List Char) : List Char :=
  (s.reverse.dropWhile p).reverse

/-- Python `s.strip()`: remove leading and trailing whitespace. -/
def pyStrip (s : List Char) : List Char :=
  pyRstripP pyWS (s.dropWhile pyWS)

/-- Python `s.rstrip(chars)`: remove trailing characters that are members
of the set `chars` (so `rstrip(' mm')` strips over the set `{' ', 'm'}`,
and `rstrip('°')` over `{'°'}`). -/
def pyRstrip (chars : List Char) (s : List Char) : List Char :=
  pyRstripP (fun c => chars.contains c) s

/-! ## `float()`: the Python float literal grammar

CPython accepts an optionally signed decimal literal (digits, optional
fraction, optional exponent, with single underscores allowed between
digits) or the case-insensitive words `nan`, `inf`, `infinity`, with
surrounding whitespace.  `digitsTail`/`digitPart` parse one `digitpart`
of the grammar, returning its value, its digit count and the unconsumed
rest. -/

/-- Consume further digits of a digitpart (underscores must sit between
two digits).  `v` is the value so far, `n` the number of digits so far. -/
def digitsTail : List Char → ℕ → ℕ → ℕ × ℕ × List Char
  | [], v, n => (v, n, [])
  | [c], v, n =>
    if c.isDigit then (10 * v + (c.toNat - 48), n + 1, [])
    else (v, n, [c])
  | c :: d :: cs, v, n =>
    if c.isDigit then digitsTail (d :: cs) (10 * v + (c.toNat - 48)) (n + 1)
    else if c = '_' ∧ d.isDigit then digitsTail cs (10 * v + (d.toNat - 48)) (n + 1)
    else (v, n, c :: d :: cs)

/-- Parse one nonempty digitpart; fails if the first char is not a digit. -/
def digitPart (s : List Char) : Option (ℕ × ℕ × List Char) :=
  match s with
  | c :: cs => if c.isDigit then some (digitsTail cs (c.toNat - 48) 1) else none
  | [] => none

/-- Consume an optional sign, returning whether it was `-` and the rest. -/
def parseSign : List Char → Bool × List Char
  | [] => (false, [])
  | c :: r =>
    if c = '+' then (false, r)
    else if c = '-' then (true, r)
    else (false, c :: r)

/-- Parse the mantissa `digits [. digits] | . digits` of a float literal,
returning its exact rational value and the unconsumed rest. -/
def parseMant (s : List Char) : Option (ℚ × List Char) :=
  match digitPart s with
  | some (v, _, rest) =>
    match rest with
    | r0 :: rest2 =>
      if r0 = '.' then
        match digitPart rest2 with
        | some (f, nf, rest3) => some ((v : ℚ) + (f : ℚ) / 10 ^ nf, rest3)
        | none => some ((v : ℚ), rest2)
      else some ((v : ℚ), r0 :: rest2)
    | [] => some ((v : ℚ), [])
  | none =>
    match s with
    | s0 :: srest =>
      if s0 = '.' then
        match digitPart srest with
        | some (f, nf, rest3) => some ((f : ℚ) / 10 ^ nf, rest3)
        | none => none
      else none
    | [] => none

/-- Parse the exponent part; it must consume the whole rest of the
string (`[]` means exponent 0, otherwise `e`/`E`, optional sign, digits). -/
def parseExpPart : List Char → Option ℤ
  | [] => some 0
  | c :: rest =>
    if lowerChar c = 'e' then
      match digitPart (parseSign rest).2 with
      | some (v, _, rest3) =>
        if rest3 = [] then
          some (if (parseSign rest).1 then -(v : ℤ) else (v : ℤ))
        else none
      | none => none
    else none

/-- The core of `float(s)` on an already-stripped string: optional sign,
then `nan` / `inf` / `infinity` (case-insensitive) or a decimal literal. -/
def parseCore (s : List Char) : Option PyFloat :=
  if (parseSign s).2.map lowerChar = "nan".toList then some .nan
  else if (parseSign s).2.map lowerChar = "inf".toList ∨
      (parseSign s).2.map lowerChar = "infinity".toList then
    some (.inf (parseSign s).1)
  else
    match parseMant (parseSign s).2 with
    | some (m, rest2) =>
      match parseExpPart rest2 with
      | some e =>
        some (.finite ((if (parseSign s).1 then -m else m) * (10 : ℚ) ^ e))
      | none => none
    | none => none

/-- Python `float(s)`: strip surrounding whitespace, then parse; `none`
models the `ValueError` raised on a malformed literal. -/
def pyFloat (s : List Char) : Option PyFloat :=
  parseCore (pyStrip s)

/-- The characters that can occur in a string accepted by `parseCore`:
digits, sign, point, underscore, and the letters of `e`, `nan`, `inf`,
`infinity` in either case.  None of them is a comma, a colon, a degree
sign, an `m` or a whitespace character, which is what makes the line
parser recover a numeric field intact. -/
def goodChar (c : Char) : Bool :=
  c.isDigit || c = '+' || c = '-' || c = '.' || c = '_' ||
    lowerChar c = 'e' || lowerChar c = 'n' || lowerChar c = 'a' ||
    lowerChar c = 'i' || lowerChar c = 'f' || lowerChar c = 't' ||
    lowerChar c = 'y'

/-- A character of a value field that the surrounding line machinery
passes through untouched: not a field separator, not stripped as a unit
character, not whitespace. -/
def cleanChar (c : Char) : Prop :=
  c ≠ ',' ∧ c ≠ ':' ∧ c ≠ '°' ∧ c ≠ 'm' ∧ pyWS c = false

instance (c : Char) : Decidable (cleanChar c) := by
  unfold cleanChar
  infer_instance

/-! ## The line parser

Source (`MappingDraftFin.py` 65-73, `mappingDraftFinal.py` 125-133, and
inlined in the 720-bucket `process_scan`, `MappingDraftFin.py` 357-363):

    parts = line.split(',')
    angle = float(parts[0].split(':')[1].strip().rstrip('°'))
    distance = float(parts[1].split(':')[1].strip().rstrip(' mm'))
    return angle, distance
  except (ValueError, IndexError):
    return None, None
-/

/-- One field of the line: split on `:`, take piece 1 (IndexError when
there is no colon), strip whitespace, strip the unit characters, convert
with `float`.  `none` is the caught `ValueError`/`IndexError`. -/
def extractField (piece : List Char) (unitChars : List Char) : Option PyFloat :=
  match (pySplit ':' piece).get? 1 with
  | none => none
  | some v => pyFloat (pyRstrip unitChars (pyStrip v))

/-- `parse_arduino_data`: returns the `(angle, distance)` pair, or `none`
for the `(None, None)` parse failure.  Evaluation order follows the
source: the angle field is processed before `parts[1]` is touched. -/
def parse_arduino_data (line : List Char) : Option (PyFloat × PyFloat) :=
  match (pySplit ',' line).get? 0 with
  | none => none
  | some p0 =>
    match extractField p0 ['°'] with
    | none => none
    | some angle =>
      match (pySplit ',' line).get? 1 with
      | none => none
      | some p1 =>
        match extractField p1 [' ', 'm'] with
        | none => none
        | some distance => some (angle, distance)

/-- A line exactly of the documented form `Angle: <A>°, Distance: <D> mm`,
with the value fields given as raw character strings. -/
def mkLine (sa sd : List Char) : List Char :=
  ("Angle: ".toList ++ sa ++ ['°']) ++
    ',' :: (" Distance: ".toList ++ sd ++ " mm".toList)

/-! ## Python `round` and the scan buffer -/

/-- Python 3 `round` on a finite float: round half to even. -/
def pyRound (q : ℚ) : ℤ :=
  if q - (⌊q⌋ : ℚ) < 1 / 2 then ⌊q⌋
  else if 1 / 2 < q - (⌊q⌋ : ℚ) then ⌊q⌋ + 1
  else if ⌊q⌋ % 2 = 0 then ⌊q⌋ else ⌊q⌋ + 1

/-- `update_data` of the 360-bucket visualizers
(`MappingDraftFin.py` 75-79, `mappingDraftFinal.py` 135-139):

    index = int(round(angle)) % 360
    self.distances[index] = distance

`int(round(x))` raises `ValueError` on a NaN angle and `OverflowError`
on an infinite one; nothing here catches it. -/
def update_data360 (angle distance : PyFloat) (ds : List PyFloat) :
    Except PyExc (List PyFloat) :=
  match angle with
  | .nan => .error .valueError
  | .inf _ => .error .overflowError
  | .finite q => .ok (ds.set ((pyRound q).emod 360).toNat distance)

/-- `update_data` of the 720-bucket visualizer
(`MappingDraftFin.py` 278-282):

    if not np.isnan(distance) and 0 <= distance <= 5000:
        index = int(round(angle * 2)) % self.buffer_size
        self.distances[index] = distance

The sanity gate is evaluated first, so a rejected distance is silently
dropped before the angle is ever rounded. -/
def update_data720 (angle distance : PyFloat) (ds : List PyFloat) :
    Except PyExc (List PyFloat) :=
  if !distance.isNan && pyGe distance 0 && pyLe distance 5000 then
    match angle with
    | .nan => .error .valueError
    | .inf _ => .error .overflowError
    | .finite q => .ok (ds.set ((pyRound (q * 2)).emod 720).toNat distance)
  else .ok ds

/-- The pre-allocated angle vector of the 360-bucket visualizers,
`np.linspace(0, 2*np.pi, 360)` (endpoint included, so the step is
`2π/359`).  Angles are represented in units of π, so entry `i` holds
`2i/359` (meaning `2πi/359` radians). -/
def angles360 : List ℚ :=
  (List.range 360).map fun i : ℕ => 2 * (i : ℚ) / 359

/-- The angle vector of the 720-bucket visualizer,
`np.linspace(0, 2*np.pi, 720, endpoint=False)`: entry `i` holds
`2i/720` in units of π. -/
def angles720 : List ℚ :=
  (List.range 720).map fun i : ℕ => 2 * (i : ℚ) / 720

/-- `save_scan` / snapshot (`MappingDraftFin.py` 130-138): the
`(np.degrees(angle), distance)` pairs of the non-NaN entries, in index
order.  `np.degrees` multiplies a π-unit angle by 180. -/
def snapshotD (angles : List ℚ) (ds : List PyFloat) : List (ℚ × PyFloat) :=
  ((angles.zip ds).filter fun p => !p.2.isNan).map fun p => (180 * p.1, p.2)

/-! ## Color classification (`MappingDraftFin.py` 309-321) -/

/-- The branch body of `get_colors` for a single distance. -/
def colorOf (d : PyFloat) : String :=
  if d.isNan then "#808080"
  else if pyLe d 300 then "#FF0000"
  else if pyLe d 1000 then "#FFFF00"
  else "#00FF00"

/-- `get_colors`: one hex color per distance (gray `#808080` = unknown,
red `#FF0000` = very-near, yellow `#FFFF00` = near, green `#00FF00` =
far). -/
def get_colors (ds : List PyFloat) : List String :=
  ds.map colorOf

/-! ## Smoothing (`MappingDraftFin.py` 284-307) -/

/-- `np.sum(~np.isnan(self.distances))`: the number of valid readings. -/
def countValid (ds : List PyFloat) : ℕ :=
  (ds.filter fun d => !d.isNan).length

/-- `smooth_data`.  The scipy pipeline (`interp1d(..., kind='cubic')`
followed by `uniform_filter1d(..., size=5)`) is external library code;
its outcome is passed in as `fitResult`, where `none` models any
exception raised during fitting (caught by the `except` clause) and
`some sm` a successful smoothed buffer.  With fewer than 4 valid points
the input buffer is returned before fitting is attempted. -/
def smooth_data (fitResult : Option (List PyFloat)) (ds : List PyFloat) :
    List PyFloat :=
  if countValid ds < 4 then ds
  else
    match fitResult with
    | some sm => sm
    | none => ds

/-! ## Zoom controls (`mappingDraftFinal.py` 65-88)

The zoom claim asserts exact float values, so here binary64 rounding is
modelled exactly: `flRound` rounds a rational to the nearest IEEE-754
double (round half to even; the inputs involved are normal numbers, so
overflow and subnormal handling are irrelevant). -/

/-- Floor of log₂ for naturals (fuel-based structural recursion so that
the kernel can evaluate it). -/
def log2Fuel : ℕ → ℕ → ℕ
  | 0, _ => 0
  | f + 1, n => if n ≤ 1 then 0 else 1 + log2Fuel f (n / 2)

/-- Ceiling of log₂ for rationals greater than 1 (fuel-based). -/
def clog2Fuel : ℕ → ℚ → ℕ
  | 0, _ => 0
  | f + 1, b => if b ≤ 1 then 0 else 1 + clog2Fuel f (b / 2)

/-- `⌊log₂ a⌋` for a positive rational. -/
def ilog2q (a : ℚ) : ℤ :=
  if 1 ≤ a then (log2Fuel ⌊a⌋.toNat ⌊a⌋.toNat : ℤ)
  else -(clog2Fuel (1 / a).num.natAbs (1 / a) : ℤ)

/-- Round a rational to the nearest integer, halves to even. -/
def rne (x : ℚ) : ℤ :=
  if x - (⌊x⌋ : ℚ) < 1 / 2 then ⌊x⌋
  else if 1 / 2 < x - (⌊x⌋ : ℚ) then ⌊x⌋ + 1
  else if ⌊x⌋ % 2 = 0 then ⌊x⌋ else ⌊x⌋ + 1

/-- Round a rational to the nearest binary64 value (53-bit significand,
round half to even). -/
def flRound (x : ℚ) : ℚ :=
  if x = 0 then 0
  else
    (if x < 0 then (-1 : ℚ) else 1) *
      (rne (|x| * 2 ^ (52 - ilog2q |x|)) : ℚ) * 2 ^ (ilog2q |x| - 52)

/-- The binary64 value of the literal `0.7`. -/
def fl07 : ℚ := flRound (7 / 10)

/-- The binary64 value of the literal `1.4`. -/
def fl14 : ℚ := flRound (14 / 10)

/-- `zoom_in` (`mappingDraftFinal.py` 65-72): the net effect on
`current_range` is `max(current_range * 0.7, self.min_range)` with
`min_range = 100` (when the clamped value equals the old one the
assignment is skipped, which changes nothing). -/
def zoom_in (currentRange : ℚ) : ℚ :=
  max (flRound (currentRange * fl07)) 100

/-- `zoom_out` (`mappingDraftFinal.py` 74-81):
`min(current_range * 1.4, self.max_range)` with `max_range = 5000`. -/
def zoom_out (currentRange : ℚ) : ℚ :=
  min (flRound (currentRange * fl14)) 5000

/-- `reset_view` (`mappingDraftFinal.py` 83-88): `current_range = 500`. -/
def reset_view : ℚ := 500

/-! ## The scan loop, one iteration as a step function

State: the distance buffer and the `last_update` timestamp.  Inputs of a
step: the current wall-clock time and the line read from the serial
port, `none` when `self.serial.in_waiting` is false.  The returned
`Bool` records whether `update_visualization` ran in this iteration; an
`Except.error` is an exception escaping the loop body (only
`KeyboardInterrupt` is caught outside the loop). -/

structure ScanState where
  distances : List PyFloat
  lastUpdate : ℚ
  deriving DecidableEq, Repr

/-- One iteration of the 360-bucket `process_scan`
(`MappingDraftFin.py` 87-100, `mappingDraftFinal.py` 147-160).  The
cadence check `current_time - last_update >= 0.05` sits inside the
parse-success branch: nothing is rendered when no data is waiting or
when the line fails to parse. -/
def process_step360 (s : ScanState) (now : ℚ) (input : Option (List Char)) :
    Except PyExc (ScanState × Bool) :=
  match input with
  | none => .ok (s, false)
  | some line =>
    match parse_arduino_data line with
    | none => .ok (s, false)
    | some (a, d) =>
      match update_data360 a d s.distances with
      | .error e => .error e
      | .ok ds =>
        if 1 / 20 ≤ now - s.lastUpdate then .ok (⟨ds, now⟩, true)
        else .ok (⟨ds, s.lastUpdate⟩, false)

/-- One iteration of the 720-bucket `process_scan`
(`MappingDraftFin.py` 354-369).  Parsing and `update_data` sit inside a
per-line `except (ValueError, IndexError)` (so a `ValueError` from
`int(round(...))` is caught and the loop continues, but an
`OverflowError` is not), and the cadence check
`current_time - last_update >= 0.1` runs on every iteration, outside the
`in_waiting` branch. -/
def process_step720 (s : ScanState) (now : ℚ) (input : Option (List Char)) :
    Except PyExc (ScanState × Bool) := do
  let ds ←
    match input with
    | none => pure s.distances
    | some line =>
      match parse_arduino_data line with
      | none => pure s.distances
      | some (a, d) =>
        match update_data720 a d s.distances with
        | .ok ds => pure ds
        | .error .valueError => pure s.distances
        | .error .overflowError => throw PyExc.overflowError
  if 1 / 10 ≤ now - s.lastUpdate then pure (⟨ds, now⟩, true)
  else pure (⟨ds, s.lastUpdate⟩, false)

/-- Feeding one line into a 360-bucket buffer, as the scan loop does:
parse, and update only when the parse succeeded. -/
def feed360 (buf : List PyFloat) (line : List Char) :
    Except PyExc (List PyFloat) :=
  match parse_arduino_data line with
  | none => .ok buf
  | some (a, d) => update_data360 a d buf

/-- The buffer as allocated at start: 360 slots, all NaN
(`np.full(self.buffer_size, np.nan)`). -/
def init360 : List PyFloat := List.replicate 360 .nan

/-- The four sample lines of the specification scenario. -/
def c3lines : List (List Char) :=
  ["Angle: 0°, Distance: 150 mm".toList,
   "Angle: 90°, Distance: 800 mm".toList,
   "Angle: 180°, Distance: 1500 mm".toList,
   "Angle: 270°, Distance: 400 mm".toList]

/-- The buffer the scenario produces. -/
def c3buf : List PyFloat :=
  (((init360.set 0 (.finite 150)).set 90 (.finite 800)).set 180
      (.finite 1500)).set 270 (.finite 400)

end Lidar

deriving instance DecidableEq for Except

namespace Lidar

/-! ## Theorems

The Batteries rational operations are irreducible by default, which
blocks `decide`-style evaluation of concrete scenarios; they are made
semireducible for the proofs below. -/

set_option maxRecDepth 40000

attribute [local semireducible] Rat.add Rat.mul Rat.inv Rat.sub

/-- C3: feeding the four scenario lines into an all-NaN 360-bucket buffer
stores the four distances at buckets 0, 90, 180 and 270 and classifies
them red (very-near), yellow (near), green (far), yellow (near) — but
`snapshot()` labels the buckets `360·i/359` degrees, not `i` degrees,
because `np.linspace(0, 2π, 360)` includes the endpoint, so the second
pair is `(32400/359, 800) ≈ (90.2507°, 800)` rather than the claimed
`(90, 800)`.  This theorem evaluates the embedded code at the failing
input. -/
theorem c3_scan_snapshot :
    c3lines.foldlM feed360 init360 = .ok c3buf ∧
    snapshotD angles360 c3buf =
      [(0, .finite 150), (32400 / 359, .finite 800),
       (64800 / 359, .finite 1500), (97200 / 359, .finite 400)] ∧
    ((32400 / 359 : ℚ) ≠ 90 ∧ (64800 / 359 : ℚ) ≠ 180 ∧
      (97200 / 359 : ℚ) ≠ 270) ∧
    get_colors [.finite 150, .finite 800, .finite 1500, .finite 400] =
      ["#FF0000", "#FFFF00", "#00FF00", "#FFFF00"] := by
  refine ⟨by decide, by decide, ⟨by norm_num, by norm_num, by norm_num⟩, by decide⟩

/-- C5: the color classifier is a pure function of the distance with the
exact boundaries of the specification: NaN/absent is gray (unknown),
any distance up to and including 300 is red (very-near), any distance
strictly above 300 and up to and including 1000 is yellow (near), and
any distance strictly above 1000 is green (far). -/
theorem c5_color_classifier :
    colorOf .nan = "#808080" ∧
    (∀ q : ℚ, q ≤ 300 → colorOf (.finite q) = "#FF0000") ∧
    (∀ q : ℚ, 300 < q → q ≤ 1000 → colorOf (.finite q) = "#FFFF00") ∧
    (∀ q : ℚ, 1000 < q → colorOf (.finite q) = "#00FF00") := by
  refine ⟨rfl, fun q hq => ?_, fun q h1 h2 => ?_, fun q h1 => ?_⟩ <;>
    simp only [colorOf, PyFloat.isNan, pyLe, Bool.false_eq_true, if_false,
      decide_eq_true_eq]
  · rw [if_pos hq]
  · rw [if_neg (by simpa using not_le.mpr h1), if_pos h2]
  · rw [if_neg (by simpa using not_le.mpr (lt_trans (by norm_num) h1)),
      if_neg (by simpa using not_le.mpr h1)]

/-- Witness for C5 at the boundary distances 300, 300.0001, 1000,
1000.0001 and NaN. -/
theorem c5_witness :
    (colorOf .nan = "#808080") ∧
    ((300 : ℚ) ≤ 300 ∧ colorOf (.finite 300) = "#FF0000") ∧
    ((300 : ℚ) < 3000001 / 10000 ∧ (3000001 / 10000 : ℚ) ≤ 1000 ∧
      colorOf (.finite (3000001 / 10000)) = "#FFFF00") ∧
    ((300 : ℚ) < 1000 ∧ (1000 : ℚ) ≤ 1000 ∧
      colorOf (.finite 1000) = "#FFFF00") ∧
    ((1000 : ℚ) < 10000001 / 10000 ∧
      colorOf (.finite (10000001 / 10000)) = "#00FF00") :=
  ⟨c5_color_classifier.1,
   ⟨by norm_num, c5_color_classifier.2.1 300 (by norm_num)⟩,
   ⟨by norm_num, by norm_num,
    c5_color_classifier.2.2.1 _ (by norm_num) (by norm_num)⟩,
   ⟨by norm_num, by norm_num,
    c5_color_classifier.2.2.1 _ (by norm_num) (by norm_num)⟩,
   ⟨by norm_num, c5_color_classifier.2.2.2 _ (by norm_num)⟩⟩

/-- C6: in the 720-bucket variant, an update whose distance is NaN,
infinite, negative or above 5000 leaves the whole buffer unchanged and
raises nothing — the update is silently dropped (the gate is evaluated
before the angle is rounded, so this holds for every angle, even NaN). -/
theorem c6_sanity_gate :
    ∀ (buf : List PyFloat) (a d : PyFloat),
      (d = .nan ∨ (∃ b, d = .inf b) ∨
        (∃ q, d = .finite q ∧ (q < 0 ∨ 5000 < q))) →
      update_data720 a d buf = .ok buf := by
  intro buf a d hd
  rcases hd with h | ⟨b, h⟩ | ⟨q, h, hq⟩ <;> subst h <;>
    simp only [update_data720, PyFloat.isNan, pyGe, pyLe]
  · simp
  · cases b <;> simp
  · rcases hq with hq | hq
    · rw [if_neg (by simp [not_le.mpr hq])]
    · rw [if_neg (by simp [not_le.mpr hq])]

/-- Witness for C6: a 6000 mm reading (above the 5000 mm cap) fed to an
empty one-slot buffer with a NaN angle is dropped without error. -/
theorem c6_witness :
    ((5000 : ℚ) < 6000) ∧
    update_data720 .nan (.finite 6000) [.nan] = .ok [.nan] :=
  ⟨by norm_num,
   c6_sanity_gate [.nan] .nan (.finite 6000)
     (Or.inr (Or.inr ⟨6000, rfl, Or.inr (by norm_num)⟩))⟩

/-- C7: `smooth_data` never fails and falls back to its input: with
fewer than 4 valid points the buffer is returned unchanged before any
fitting is attempted, and whenever the fitting pipeline raises (modelled
by `fitResult = none`) the unsmoothed buffer is returned. -/
theorem c7_smooth_fallback :
    (∀ (fitResult : Option (List PyFloat)) (ds : List PyFloat),
        countValid ds < 4 → smooth_data fitResult ds = ds) ∧
    (∀ ds : List PyFloat, smooth_data none ds = ds) := by
  constructor
  · intro fr ds h
    simp [smooth_data, h]
  · intro ds
    unfold smooth_data
    split <;> rfl

/-- Witness for C7: a buffer with one valid point is below the 4-point
threshold and is returned unchanged even though a smoothed candidate was
available. -/
theorem c7_witness :
    countValid [PyFloat.nan, PyFloat.finite 100] < 4 ∧
    smooth_data (some [PyFloat.finite 1, PyFloat.finite 2])
        [PyFloat.nan, PyFloat.finite 100] =
      [PyFloat.nan, PyFloat.finite 100] :=
  ⟨by decide, c7_smooth_fallback.1 _ _ (by decide)⟩

/-- The bucket index computed by `update_data360` is in range. -/
theorem idx_emod_lt (x : ℤ) {n : ℕ} (hn : 0 < n) : (x.emod n).toNat < n := by
  have h0 : 0 ≤ x.emod n := Int.emod_nonneg x (by exact_mod_cast hn.ne')
  have h1 : x.emod n < n := Int.emod_lt_of_pos x (by exact_mod_cast hn)
  omega

/-- A non-NaN entry of the buffer appears in the snapshot, paired with
180 times its π-unit angle. -/
theorem mem_snapshotD {angles : List ℚ} {ds : List PyFloat} {i : ℕ}
    {α : ℚ} {d : PyFloat} (ha : angles[i]? = some α) (hd : ds[i]? = some d)
    (hnan : d.isNan = false) : (180 * α, d) ∈ snapshotD angles ds := by
  have hz : (angles.zip ds)[i]? = some (α, d) :=
    List.getElem?_zip_eq_some.mpr ⟨ha, hd⟩
  have hmem : (α, d) ∈ angles.zip ds := List.getElem?_mem hz
  have hf : (α, d) ∈ (angles.zip ds).filter fun p => !p.2.isNan :=
    List.mem_filter.mpr ⟨hmem, by simp [hnan]⟩
  exact List.mem_map_of_mem (fun p => (180 * p.1, p.2)) hf

/-- The π-unit angle stored at index `i` of the 360-entry angle vector. -/
theorem angles360_getElem (i : ℕ) (h : i < 360) :
    angles360[i]? = some (2 * (i : ℚ) / 359) := by
  rw [angles360, List.getElem?_map, List.getElem?_range h, Option.map_some']

/-- The π-unit angle stored at index `i` of the 720-entry angle vector. -/
theorem angles720_getElem (i : ℕ) (h : i < 720) :
    angles720[i]? = some (2 * (i : ℚ) / 720) := by
  rw [angles720, List.getElem?_map, List.getElem?_range h, Option.map_some']

/-- C2 counterexample: in the 720-bucket variant, `update(0, 6000)`
does not store 6000 at bucket `round(0·2) mod 720 = 0` — the sanity gate
drops it, the buffer is unchanged and the bucket still holds NaN. -/
theorem c2_counterexample :
    update_data720 (.finite 0) (.finite 6000) (List.replicate 720 .nan) =
      .ok (List.replicate 720 .nan) ∧
    ((pyRound ((0 : ℚ) * 2)).emod 720).toNat = 0 ∧
    (List.replicate 720 PyFloat.nan)[0]? = some .nan ∧
    some PyFloat.nan ≠ some (PyFloat.finite 6000) := by
  refine ⟨by decide, by decide, by decide, by decide⟩

/-- C2 as amended: for every finite angle `A`, the 360-bucket
`update(A, D)` stores `D` at bucket `round(A) mod 360`, leaves every
other bucket unchanged, and (when `D` is not NaN) the following snapshot
contains `D` at that bucket; in the 720-bucket variant the same holds
for bucket `round(A·2) mod 720` provided `D` is finite and passes the
`[0, 5000]` sanity gate. -/
theorem c2_update_stores_bucket :
    (∀ (buf : List PyFloat) (a : ℚ) (d : PyFloat),
      buf.length = 360 →
      ∃ buf2, update_data360 (.finite a) d buf = .ok buf2 ∧
        buf2[((pyRound a).emod 360).toNat]? = some d ∧
        (∀ j : ℕ, j ≠ ((pyRound a).emod 360).toNat → buf2[j]? = buf[j]?) ∧
        (d.isNan = false →
          (180 * (2 * (((pyRound a).emod 360).toNat : ℚ) / 359), d) ∈
            snapshotD angles360 buf2)) ∧
    (∀ (buf : List PyFloat) (a q : ℚ),
      buf.length = 720 → 0 ≤ q → q ≤ 5000 →
      ∃ buf2, update_data720 (.finite a) (.finite q) buf = .ok buf2 ∧
        buf2[((pyRound (a * 2)).emod 720).toNat]? = some (.finite q) ∧
        (∀ j : ℕ, j ≠ ((pyRound (a * 2)).emod 720).toNat →
          buf2[j]? = buf[j]?) ∧
        (180 * (2 * (((pyRound (a * 2)).emod 720).toNat : ℚ) / 720),
            PyFloat.finite q) ∈
          snapshotD angles720 buf2) := by
  constructor
  · intro buf a d hlen
    refine ⟨buf.set ((pyRound a).emod 360).toNat d, rfl, ?_, ?_, ?_⟩
    · exact List.getElem?_set_self (by rw [hlen]; exact idx_emod_lt _ (by norm_num))
    · intro j hj
      exact List.getElem?_set_ne (Ne.symm hj)
    · intro hnan
      refine mem_snapshotD (angles360_getElem _ (idx_emod_lt _ (by norm_num)))
        ?_ hnan
      exact List.getElem?_set_self (by rw [hlen]; exact idx_emod_lt _ (by norm_num))
  · intro buf a q hlen h0 h5
    have hgate : (!(PyFloat.finite q).isNan && pyGe (.finite q) 0 &&
        pyLe (.finite q) 5000) = true := by
      simp [PyFloat.isNan, pyGe, pyLe, h0, h5]
    refine ⟨buf.set ((pyRound (a * 2)).emod 720).toNat (.finite q),
      ?_, ?_, ?_, ?_⟩
    · rw [update_data720, if_pos hgate]
    · exact List.getElem?_set_self (by rw [hlen]; exact idx_emod_lt _ (by norm_num))
    · intro j hj
      exact List.getElem?_set_ne (Ne.symm hj)
    · refine mem_snapshotD (angles720_getElem _ (idx_emod_lt _ (by norm_num)))
        ?_ (by rfl)
      exact List.getElem?_set_self (by rw [hlen]; exact idx_emod_lt _ (by norm_num))

/-- Witness for C2 at angle 90.4, distance 800, on concrete buffers
(`round(90.4) = 90`, `round(90.4·2) = 181` — note the even/odd halves
never arise here). -/
theorem c2_witness :
    (List.replicate 360 PyFloat.nan).length = 360 ∧
    (List.replicate 720 PyFloat.nan).length = 720 ∧
    (0 : ℚ) ≤ 800 ∧ (800 : ℚ) ≤ 5000 ∧
    (∃ buf2, update_data360 (.finite (452 / 5)) (.finite 800)
          (List.replicate 360 .nan) = .ok buf2 ∧
        buf2[((pyRound (452 / 5)).emod 360).toNat]? =
          some (.finite 800) ∧
        (∀ j : ℕ, j ≠ ((pyRound (452 / 5)).emod 360).toNat →
          buf2[j]? = (List.replicate 360 PyFloat.nan)[j]?) ∧
        ((PyFloat.finite 800).isNan = false →
          (180 * (2 * (((pyRound (452 / 5 : ℚ)).emod 360).toNat : ℚ) / 359),
              PyFloat.finite 800) ∈
            snapshotD angles360 buf2)) ∧
    (∃ buf2, update_data720 (.finite (452 / 5)) (.finite 800)
          (List.replicate 720 .nan) = .ok buf2 ∧
        buf2[((pyRound ((452 / 5 : ℚ) * 2)).emod 720).toNat]? =
          some (.finite 800) ∧
        (∀ j : ℕ, j ≠ ((pyRound ((452 / 5 : ℚ) * 2)).emod 720).toNat →
          buf2[j]? = (List.replicate 720 PyFloat.nan)[j]?) ∧
        (180 * (2 * (((pyRound ((452 / 5 : ℚ) * 2)).emod 720).toNat : ℚ) /
              720), PyFloat.finite 800) ∈
          snapshotD angles720 buf2) :=
  ⟨by decide, by decide, by norm_num, by norm_num,
   c2_update_stores_bucket.1 (List.replicate 360 .nan) (452 / 5)
     (.finite 800) (by decide),
   c2_update_stores_bucket.2 (List.replicate 720 .nan) (452 / 5) 800
     (by decide) (by norm_num) (by norm_num)⟩

/-- C4 counterexample: in the 720-bucket variant the overwrite law
fails when the second distance is rejected by the sanity gate:
`update(0, 100)` then `update(0, 6000)` leaves 100 at bucket 0, while
`update(0, 6000)` alone leaves the buffer empty. -/
theorem c4_counterexample :
    (update_data720 (.finite 0) (.finite 100)
          (List.replicate 720 .nan)).bind
        (update_data720 (.finite 0) (.finite 6000)) ≠
      update_data720 (.finite 0) (.finite 6000)
        (List.replicate 720 .nan) := by decide

/-- C4 as amended: updates are idempotent in both variants for every
angle and distance (even on the exception paths, where both sides raise
identically), and last-write-wins holds for every pair of distances in
the 360-bucket variants and, in the 720-bucket variant, whenever the
second distance passes the sanity gate; after the two writes the bucket
holds exactly the second distance. -/
theorem c4_update_laws :
    (∀ (x d : PyFloat) (buf : List PyFloat),
      (update_data360 x d buf).bind (update_data360 x d) =
        update_data360 x d buf) ∧
    (∀ (x d : PyFloat) (buf : List PyFloat),
      (update_data720 x d buf).bind (update_data720 x d) =
        update_data720 x d buf) ∧
    (∀ (x d1 d2 : PyFloat) (buf : List PyFloat),
      (update_data360 x d1 buf).bind (update_data360 x d2) =
        update_data360 x d2 buf) ∧
    (∀ (x d1 : PyFloat) (q2 : ℚ) (buf : List PyFloat),
      0 ≤ q2 → q2 ≤ 5000 →
      (update_data720 x d1 buf).bind (update_data720 x (.finite q2)) =
        update_data720 x (.finite q2) buf) ∧
    (∀ (a : ℚ) (d1 d2 : PyFloat) (buf : List PyFloat) (buf2 : List PyFloat),
      buf.length = 360 →
      (update_data360 (.finite a) d1 buf).bind (update_data360 (.finite a) d2)
        = .ok buf2 →
      buf2[((pyRound a).emod 360).toNat]? = some d2) := by
  refine ⟨fun x d buf => ?_, fun x d buf => ?_, fun x d1 d2 buf => ?_,
    fun x d1 q2 buf h0 h5 => ?_, fun a d1 d2 buf buf2 hlen hok => ?_⟩
  · cases x with
    | nan => rfl
    | inf b => rfl
    | finite q =>
      simp only [update_data360, Except.bind, List.set_set]
  · cases hgate : (!d.isNan && pyGe d 0 && pyLe d 5000) with
    | false => simp [update_data720, hgate, Except.bind]
    | true =>
      cases x with
      | nan => simp only [update_data720, if_pos hgate, Except.bind]
      | inf b => simp only [update_data720, if_pos hgate, Except.bind]
      | finite q =>
        simp only [update_data720, if_pos hgate, Except.bind, List.set_set]
  · cases x with
    | nan => rfl
    | inf b => rfl
    | finite q =>
      simp only [update_data360, Except.bind, List.set_set]
  · have hgate2 : (!(PyFloat.finite q2).isNan && pyGe (.finite q2) 0 &&
        pyLe (.finite q2) 5000) = true := by
      simp [PyFloat.isNan, pyGe, pyLe, h0, h5]
    cases hgate : (!d1.isNan && pyGe d1 0 && pyLe d1 5000) with
    | false =>
      simp [update_data720, hgate, Except.bind, if_pos hgate2]
    | true =>
      cases x with
      | nan =>
        simp only [update_data720, if_pos hgate, if_pos hgate2, Except.bind]
      | inf b =>
        simp only [update_data720, if_pos hgate, if_pos hgate2, Except.bind]
      | finite q =>
        simp only [update_data720, if_pos hgate, if_pos hgate2, Except.bind,
          List.set_set]
  · simp only [update_data360, Except.bind, List.set_set] at hok
    cases hok
    exact List.getElem?_set_eq_of_lt d2
      (by rw [hlen]; exact idx_emod_lt _ (by norm_num))

/-- Witness for C4: the gated overwrite law and the bucket-content law
at angle 0, distances 100 then 200, on concrete 720- and 360-slot
buffers. -/
theorem c4_witness :
    ((0 : ℚ) ≤ 200 ∧ (200 : ℚ) ≤ 5000 ∧
      (update_data720 (.finite 0) (.finite 100)
            (List.replicate 720 .nan)).bind
          (update_data720 (.finite 0) (.finite 200)) =
        update_data720 (.finite 0) (.finite 200)
          (List.replicate 720 .nan)) ∧
    ((List.replicate 360 PyFloat.nan).length = 360 ∧
      ((List.replicate 360 PyFloat.nan).set 0
          (PyFloat.finite 200))[((pyRound (0 : ℚ)).emod 360).toNat]? =
        some (.finite 200)) :=
  ⟨⟨by norm_num, by norm_num,
    c4_update_laws.2.2.2.1 (.finite 0) (.finite 100) 200
      (List.replicate 720 .nan) (by norm_num) (by norm_num)⟩,
   ⟨by decide,
    c4_update_laws.2.2.2.2 0 (.finite 100) (.finite 200)
      (List.replicate 360 .nan) _ (by decide) (by decide)⟩⟩

/-- C8 counterexample: the first `zoom_in` from 500 does reach exactly
350, but the second one lands on the binary64 product
`350 * 0.7 = 244.99999999999997…`, not exactly 245. -/
theorem c8_counterexample :
    zoom_in 500 = 350 ∧ zoom_in (zoom_in 500) ≠ 245 := by decide

/-- C8 as amended: from 500, `zoom_in` gives exactly 350; a second
`zoom_in` gives the double nearest `350 * 0.7`, namely
`8620171161763839 / 2^45 = 244.99999999999997…`; `reset_view` restores
500.  In general `zoom_in` multiplies `current_range` by the binary64
value of 0.7 (rounding the product to binary64) and clamps the result
below at `min_range = 100`, and `zoom_out` multiplies by the binary64
value of 1.4 and clamps above at `max_range = 5000`; consequently every
zoomed range stays within the clamp on its own side. -/
theorem c8_zoom_behavior :
    zoom_in 500 = 350 ∧
    zoom_in 350 = 8620171161763839 / 35184372088832 ∧
    reset_view = 500 ∧
    zoom_out 500 = 700 ∧
    (∀ c : ℚ, zoom_in c =
      if flRound (c * fl07) < 100 then 100 else flRound (c * fl07)) ∧
    (∀ c : ℚ, zoom_out c =
      if 5000 < flRound (c * fl14) then 5000 else flRound (c * fl14)) ∧
    (∀ c : ℚ, 100 ≤ zoom_in c) ∧
    (∀ c : ℚ, zoom_out c ≤ 5000) := by
  refine ⟨by decide, by decide, rfl, by decide, fun c => ?_, fun c => ?_,
    fun c => le_max_right _ _, fun c => min_le_right _ _⟩
  · rcases lt_or_le (flRound (c * fl07)) 100 with h | h
    · rw [if_pos h, zoom_in, max_eq_right h.le]
    · rw [if_neg (not_lt.mpr h), zoom_in, max_eq_left h]
  · rcases lt_or_le 5000 (flRound (c * fl14)) with h | h
    · rw [if_pos h, zoom_out, min_eq_right h.le]
    · rw [if_neg (not_lt.mpr h), zoom_out, min_eq_left h]

/-- The sample line whose angle field is the word `nan`, which `float()`
accepts. -/
def nanLine : List Char := "Angle: nan°, Distance: 100 mm".toList

/-- The sample line whose angle field is the word `inf`, which `float()`
accepts. -/
def infLine : List Char := "Angle: inf°, Distance: 100 mm".toList

/-- C10 counterexample: the parser accepts the angle field `inf`, and in
the 720-bucket variant the resulting `OverflowError` from
`int(round(angle * 2))` is NOT caught by the per-line
`except (ValueError, IndexError)` — the exception escapes the loop, so
it is not the case that the 720-bucket variant catches every such
exception and continues. -/
theorem c10_counterexample :
    parse_arduino_data infLine = some (.inf false, .finite 100) ∧
    process_step720 ⟨List.replicate 720 .nan, 0⟩ 1 (some infLine) =
      .error .overflowError := by
  constructor <;> decide

/-- C10 as amended: the parser accepts the angle fields `nan` and `inf`
(`float()` parses them); `update_data` of the 360-bucket variants then
raises `ValueError` (NaN) or `OverflowError` (infinity), which nothing
inside those scan loops catches, so the loop terminates.  The 720-bucket
variant's per-line `except (ValueError, IndexError)` catches the
`ValueError` from a NaN angle and continues exactly as if no line had
arrived, but the `OverflowError` from an infinite angle escapes there
too. -/
theorem c10_exception_paths :
    parse_arduino_data nanLine = some (.nan, .finite 100) ∧
    parse_arduino_data infLine = some (.inf false, .finite 100) ∧
    (∀ buf : List PyFloat,
      update_data360 .nan (.finite 100) buf = .error .valueError) ∧
    (∀ buf : List PyFloat, ∀ b : Bool,
      update_data360 (.inf b) (.finite 100) buf = .error .overflowError) ∧
    (∀ (s : ScanState) (now : ℚ),
      process_step360 s now (some nanLine) = .error .valueError) ∧
    (∀ (s : ScanState) (now : ℚ),
      process_step360 s now (some infLine) = .error .overflowError) ∧
    (∀ (s : ScanState) (now : ℚ),
      process_step720 s now (some nanLine) = process_step720 s now none) ∧
    (∀ (s : ScanState) (now : ℚ),
      process_step720 s now (some infLine) = .error .overflowError) := by
  have hnan : parse_arduino_data nanLine = some (.nan, .finite 100) := by decide
  have hinf : parse_arduino_data infLine = some (.inf false, .finite 100) := by
    decide
  refine ⟨hnan, hinf, fun buf => rfl, fun buf b => rfl,
    fun s now => ?_, fun s now => ?_, fun s now => ?_, fun s now => ?_⟩
  · simp only [process_step360, hnan, update_data360]
  · simp only [process_step360, hinf, update_data360]
  · have hu : update_data720 .nan (.finite 100) s.distances =
        .error .valueError := by
      norm_num [update_data720, pyGe, pyLe, PyFloat.isNan]
    simp only [process_step720, hnan, hu]
  · have hu : update_data720 (.inf false) (.finite 100) s.distances =
        .error .overflowError := by
      norm_num [update_data720, pyGe, pyLe, PyFloat.isNan]
    simp only [process_step720, hinf, hu]
    rfl

/-- C9 counterexample: in a 360-bucket variant, an iteration with no
bytes waiting does not render, even though the 50 ms cadence interval
has long elapsed (here `now - last_update = 1 ≥ 1/20`). -/
theorem c9_counterexample :
    (1 : ℚ) / 20 ≤ 1 - (0 : ℚ) ∧
    process_step360 ⟨init360, 0⟩ 1 none = .ok (⟨init360, 0⟩, false) := by
  constructor
  · norm_num
  · rfl

/-- C9 as amended: only the 720-bucket variant renders on the fixed
wall-clock cadence regardless of input — from any state whose 100 ms
interval has elapsed, any iteration that does not raise renders, with
arbitrary input (none, unparseable, or parseable).  In the 360-bucket
variants the render is nested inside the parse-success branch: an
iteration renders exactly when a line was successfully parsed, the
update did not raise, and the 50 ms interval has elapsed. -/
theorem c9_render_cadence :
    (∀ (s : ScanState) (now : ℚ) (input : Option (List Char))
        (r : ScanState × Bool),
      1 / 10 ≤ now - s.lastUpdate →
      process_step720 s now input = .ok r → r.2 = true) ∧
    (∀ (s : ScanState) (now : ℚ) (line : List Char) (a d : PyFloat)
        (ds : List PyFloat),
      1 / 20 ≤ now - s.lastUpdate →
      parse_arduino_data line = some (a, d) →
      update_data360 a d s.distances = .ok ds →
      process_step360 s now (some line) = .ok (⟨ds, now⟩, true)) := by
  constructor
  · intro s now input r helapsed hok
    cases input with
    | none =>
      simp only [process_step720, bind, Except.bind, pure, Except.pure,
        if_pos helapsed] at hok
      cases hok
      rfl
    | some line =>
      cases hp : parse_arduino_data line with
      | none =>
        simp only [process_step720, hp, bind, Except.bind, pure, Except.pure,
          if_pos helapsed] at hok
        cases hok
        rfl
      | some ad =>
        obtain ⟨a, d⟩ := ad
        cases hu : update_data720 a d s.distances with
        | ok ds =>
          simp only [process_step720, hp, hu, bind, Except.bind, pure,
            Except.pure, if_pos helapsed] at hok
          cases hok
          rfl
        | error e =>
          cases e with
          | valueError =>
            simp only [process_step720, hp, hu, bind, Except.bind, pure,
              Except.pure, if_pos helapsed] at hok
            cases hok
            rfl
          | overflowError =>
            simp only [process_step720, hp, hu, bind, Except.bind, throw,
              throwThe, MonadExceptOf.throw] at hok
            cases hok
  · intro s now line a d ds helapsed hp hu
    simp only [process_step360, hp, hu, if_pos helapsed]

/-- Witness for C9: a concrete 720-bucket iteration with no input and
an elapsed interval renders, and a concrete 360-bucket iteration with a
parsed line and an elapsed interval renders. -/
theorem c9_witness :
    ((1 : ℚ) / 10 ≤ 1 - (0 : ℚ) ∧
      ((⟨List.replicate 720 .nan, 1⟩, true) : ScanState × Bool).2 = true) ∧
    ((1 : ℚ) / 20 ≤ 1 - (0 : ℚ) ∧
      process_step360 ⟨init360, 0⟩ 1
          (some "Angle: 0°, Distance: 150 mm".toList) =
        .ok (⟨init360.set 0 (.finite 150), 1⟩, true)) :=
  ⟨⟨by norm_num,
    c9_render_cadence.1 ⟨List.replicate 720 .nan, 0⟩ 1 none
      (⟨List.replicate 720 .nan, 1⟩, true) (by norm_num) (by decide)⟩,
   ⟨by norm_num,
    c9_render_cadence.2 ⟨init360, 0⟩ 1
      "Angle: 0°, Distance: 150 mm".toList (.finite 0) (.finite 150)
      (init360.set 0 (.finite 150)) (by norm_num) (by decide) (by decide)⟩⟩

/-! ## The line-parser theorem (C1)

The universally quantified parts need structural facts about the value
fields: a string `parseCore` accepts consists only of `goodChar`
characters, so the comma split, the colon split, `strip()` and the unit
`rstrip` recover it exactly. -/

/-- `parseSign` either consumes nothing or one leading sign character. -/
theorem parseSign_cases (s : List Char) :
    ((parseSign s).2 = s ∧ (parseSign s).1 = false) ∨
      ∃ c, (c = '+' ∨ c = '-') ∧ s = c :: (parseSign s).2 := by
  cases s with
  | nil => exact Or.inl ⟨rfl, rfl⟩
  | cons c r =>
    by_cases h1 : c = '+'
    · subst h1
      exact Or.inr ⟨'+', Or.inl rfl, by simp [parseSign]⟩
    · by_cases h2 : c = '-'
      · subst h2
        exact Or.inr ⟨'-', Or.inr rfl, by simp [parseSign]⟩
      · exact Or.inl ⟨by simp [parseSign, h1, h2], by simp [parseSign, h1, h2]⟩

/-- The characters `digitsTail` consumes are digits or underscores. -/
theorem digitsTail_suffix (s : List Char) (v n : ℕ) :
    ∃ pre, s = pre ++ (digitsTail s v n).2.2 ∧
      ∀ c ∈ pre, c.isDigit = true ∨ c = '_' := by
  induction s, v, n using digitsTail.induct with
  | case1 v n => exact ⟨[], rfl, by simp⟩
  | case2 c v n hdig =>
    exact ⟨[c], by simp [digitsTail, hdig], by simp [hdig]⟩
  | case3 c v n hdig =>
    refine ⟨[], ?_, by simp⟩
    simp [digitsTail, hdig]
  | case4 c d cs v n hdig ih =>
    obtain ⟨pre, heq, hpre⟩ := ih
    refine ⟨c :: pre, ?_, ?_⟩
    · simpa [digitsTail, hdig] using congrArg (c :: ·) heq
    · intro x hx
      rcases List.mem_cons.mp hx with rfl | hx
      · exact Or.inl hdig
      · exact hpre x hx
  | case5 c d cs v n hdig hund ih =>
    obtain ⟨pre, heq, hpre⟩ := ih
    refine ⟨c :: d :: pre, ?_, ?_⟩
    · have : digitsTail (c :: d :: cs) v n =
          digitsTail cs (10 * v + (d.toNat - 48)) (n + 1) := by
        rw [digitsTail, if_neg (by simp [hdig]), if_pos hund]
      rw [this]
      simpa using congrArg (fun t => c :: d :: t) heq
    · intro x hx
      rcases List.mem_cons.mp hx with rfl | hx
      · exact Or.inr hund.1
      · rcases List.mem_cons.mp hx with rfl | hx
        · exact Or.inl hund.2
        · exact hpre x hx
  | case6 c d cs v n hdig hund =>
    refine ⟨[], ?_, by simp⟩
    rw [List.nil_append, digitsTail, if_neg hdig, if_neg hund]

/-- The characters `digitPart` consumes are digits or underscores. -/
theorem digitPart_suffix {s : List Char} {v n : ℕ} {r : List Char}
    (h : digitPart s = some (v, n, r)) :
    ∃ pre, s = pre ++ r ∧ ∀ c ∈ pre, c.isDigit = true ∨ c = '_' := by
  cases s with
  | nil => simp [digitPart] at h
  | cons c cs =>
    by_cases hdig : c.isDigit
    · rw [digitPart, if_pos hdig] at h
      obtain ⟨pre, heq, hpre⟩ := digitsTail_suffix cs (c.toNat - 48) 1
      injection h with h
      rw [h] at heq
      refine ⟨c :: pre, by simpa using congrArg (c :: ·) heq, ?_⟩
      intro x hx
      rcases List.mem_cons.mp hx with rfl | hx
      · exact Or.inl hdig
      · exact hpre x hx
    · rw [digitPart, if_neg hdig] at h
      exact absurd h (by simp)

/-- The characters `parseMant` consumes are digits, underscores or a
point. -/
theorem parseMant_suffix {s : List Char} {m : ℚ} {r : List Char}
    (h : parseMant s = some (m, r)) :
    ∃ pre, s = pre ++ r ∧
      ∀ c ∈ pre, c.isDigit = true ∨ c = '_' ∨ c = '.' := by
  unfold parseMant at h
  cases hdp : digitPart s with
  | some vnr =>
    obtain ⟨v, n, rest⟩ := vnr
    rw [hdp] at h
    dsimp only at h
    obtain ⟨pre1, heq1, hpre1⟩ := digitPart_suffix hdp
    cases rest with
    | nil =>
      simp only [Option.some.injEq, Prod.mk.injEq] at h
      obtain ⟨h1, h2⟩ := h
      subst h2
      exact ⟨pre1, by simpa using heq1,
        fun c hc => (hpre1 c hc).imp id Or.inl⟩
    | cons c2 rest2 =>
      dsimp only at h
      by_cases hc2 : c2 = '.'
      · subst hc2
        rw [if_pos rfl] at h
        cases hdp2 : digitPart rest2 with
        | some fr =>
          obtain ⟨f, nf, rest3⟩ := fr
          rw [hdp2] at h
          dsimp only at h
          simp only [Option.some.injEq, Prod.mk.injEq] at h
          obtain ⟨h1, h2⟩ := h
          subst h2
          obtain ⟨pre2, heq2, hpre2⟩ := digitPart_suffix hdp2
          refine ⟨pre1 ++ '.' :: pre2, ?_, ?_⟩
          · rw [heq1, heq2]
            simp
          · intro c hc
            rcases List.mem_append.mp hc with hc | hc
            · exact (hpre1 c hc).imp id Or.inl
            · rcases List.mem_cons.mp hc with rfl | hc
              · exact Or.inr (Or.inr rfl)
              · exact (hpre2 c hc).imp id Or.inl
        | none =>
          rw [hdp2] at h
          dsimp only at h
          simp only [Option.some.injEq, Prod.mk.injEq] at h
          obtain ⟨h1, h2⟩ := h
          subst h2
          refine ⟨pre1 ++ ['.'], ?_, ?_⟩
          · rw [heq1]; simp
          · intro c hc
            rcases List.mem_append.mp hc with hc | hc
            · exact (hpre1 c hc).imp id Or.inl
            · simp only [List.mem_singleton] at hc
              exact Or.inr (Or.inr hc)
      · rw [if_neg hc2] at h
        simp only [Option.some.injEq, Prod.mk.injEq] at h
        obtain ⟨h1, h2⟩ := h
        subst h2
        exact ⟨pre1, heq1, fun c hc => (hpre1 c hc).imp id Or.inl⟩
  | none =>
    rw [hdp] at h
    dsimp only at h
    cases s with
    | nil => simp at h
    | cons c0 s0 =>
      dsimp only at h
      by_cases hc0 : c0 = '.'
      · subst hc0
        rw [if_pos rfl] at h
        cases hdp2 : digitPart s0 with
        | some fr =>
          obtain ⟨f, nf, rest3⟩ := fr
          rw [hdp2] at h
          dsimp only at h
          simp only [Option.some.injEq, Prod.mk.injEq] at h
          obtain ⟨h1, h2⟩ := h
          subst h2
          obtain ⟨pre2, heq2, hpre2⟩ := digitPart_suffix hdp2
          refine ⟨'.' :: pre2, ?_, ?_⟩
          · simp [heq2]
          · intro c hc
            rcases List.mem_cons.mp hc with rfl | hc
            · exact Or.inr (Or.inr rfl)
            · exact (hpre2 c hc).imp id Or.inl
        | none => rw [hdp2] at h; exact absurd h (by simp)
      · rw [if_neg hc0] at h
        exact absurd h (by simp)

/-- Digits and underscores are `goodChar`s. -/
theorem goodChar_of_digit_or_underscore {c : Char}
    (h : c.isDigit = true ∨ c = '_') : goodChar c = true := by
  rcases h with h | rfl
  · simp [goodChar, h]
  · decide

/-- Digits, underscores and points are `goodChar`s. -/
theorem goodChar_of_mant {c : Char}
    (h : c.isDigit = true ∨ c = '_' ∨ c = '.') : goodChar c = true := by
  rcases h with h | rfl | rfl
  · simp [goodChar, h]
  · decide
  · decide

/-- The letters of the words `nan`, `inf`, `infinity` and `e` are
`goodChar`s. -/
theorem goodChar_of_lower {c : Char}
    (h : lowerChar c = 'e' ∨ lowerChar c = 'n' ∨ lowerChar c = 'a' ∨
      lowerChar c = 'i' ∨ lowerChar c = 'f' ∨ lowerChar c = 't' ∨
      lowerChar c = 'y') : goodChar c = true := by
  rcases h with h | h | h | h | h | h | h <;> simp [goodChar, h]

/-- Lift goodness of the post-sign part to the whole string. -/
theorem good_of_parseSign {s : List Char}
    (h2 : ∀ c ∈ (parseSign s).2, goodChar c = true) :
    ∀ c ∈ s, goodChar c = true := by
  rcases parseSign_cases s with ⟨heq, _⟩ | ⟨c0, hc0, heq⟩
  · rw [heq] at h2
    exact h2
  · intro c hc
    rw [heq] at hc
    rcases List.mem_cons.mp hc with rfl | hc
    · rcases hc0 with rfl | rfl <;> decide
    · exact h2 c hc

/-- Every character of a string accepted by `parseExpPart` is good. -/
theorem parseExpPart_good {s : List Char} {e : ℤ}
    (h : parseExpPart s = some e) : ∀ c ∈ s, goodChar c = true := by
  cases s with
  | nil => simp
  | cons c rest =>
    rw [parseExpPart] at h
    by_cases he : lowerChar c = 'e'
    · rw [if_pos he] at h
      cases hdp : digitPart (parseSign rest).2 with
      | none => rw [hdp] at h; exact absurd h (by simp)
      | some vnr =>
        obtain ⟨v, n, rest3⟩ := vnr
        rw [hdp] at h
        dsimp only at h
        by_cases hr : rest3 = []
        · subst hr
          obtain ⟨pre, heq, hpre⟩ := digitPart_suffix hdp
          rw [List.append_nil] at heq
          have htail : ∀ x ∈ rest, goodChar x = true := by
            apply good_of_parseSign
            rw [heq]
            exact fun x hx => goodChar_of_digit_or_underscore (hpre x hx)
          intro x hx
          rcases List.mem_cons.mp hx with rfl | hx
          · exact goodChar_of_lower (Or.inl he)
          · exact htail x hx
        · rw [if_neg hr] at h
          exact absurd h (by simp)
    · rw [if_neg he] at h
      exact absurd h (by simp)

/-- Every character of a string accepted by `parseCore` is good. -/
theorem parseCore_good {s : List Char} {v : PyFloat}
    (h : parseCore s = some v) : ∀ c ∈ s, goodChar c = true := by
  rw [parseCore] at h
  by_cases h1 : (parseSign s).2.map lowerChar = "nan".toList
  · apply good_of_parseSign
    intro c hc
    have h3 : lowerChar c ∈ ['n', 'a', 'n'] := by
      have := List.mem_map_of_mem lowerChar hc
      rw [h1] at this
      exact this
    simp only [List.mem_cons, List.not_mem_nil, or_false] at h3
    apply goodChar_of_lower
    tauto
  · rw [if_neg h1] at h
    by_cases h2 : (parseSign s).2.map lowerChar = "inf".toList ∨
        (parseSign s).2.map lowerChar = "infinity".toList
    · apply good_of_parseSign
      intro c hc
      apply goodChar_of_lower
      rcases h2 with h2 | h2
      · have h3 : lowerChar c ∈ ['i', 'n', 'f'] := by
          have := List.mem_map_of_mem lowerChar hc
          rw [h2] at this
          exact this
        simp only [List.mem_cons, List.not_mem_nil, or_false] at h3
        tauto
      · have h3 : lowerChar c ∈ ['i', 'n', 'f', 'i', 'n', 'i', 't', 'y'] := by
          have := List.mem_map_of_mem lowerChar hc
          rw [h2] at this
          exact this
        simp only [List.mem_cons, List.not_mem_nil, or_false] at h3
        tauto
    · rw [if_neg h2] at h
      cases hm : parseMant (parseSign s).2 with
      | none => rw [hm] at h; exact absurd h (by simp)
      | some mr =>
        obtain ⟨m, rest2⟩ := mr
        rw [hm] at h
        dsimp only at h
        cases he : parseExpPart rest2 with
        | none => rw [he] at h; exact absurd h (by simp)
        | some e =>
          obtain ⟨pre, heq, hpre⟩ := parseMant_suffix hm
          apply good_of_parseSign
          rw [heq]
          intro c hc
          rcases List.mem_append.mp hc with hc | hc
          · exact goodChar_of_mant (hpre c hc)
          · exact parseExpPart_good he c hc

/-- A good character is never one of the line's structural characters
(comma, colon, degree sign, `m`) nor whitespace, so the field machinery
leaves it alone. -/
theorem goodChar_clean {c : Char} (h : goodChar c = true) : cleanChar c := by
  refine ⟨?_, ?_, ?_, ?_, ?_⟩
  · intro hc; rw [hc] at h; exact absurd h (by decide)
  · intro hc; rw [hc] at h; exact absurd h (by decide)
  · intro hc; rw [hc] at h; exact absurd h (by decide)
  · intro hc; rw [hc] at h; exact absurd h (by decide)
  · by_contra hws
    rw [Bool.not_eq_false] at hws
    have : c = ' ' ∨ c = '\t' ∨ c = '\n' ∨ c = '\r' ∨ c = '\x0b' ∨
        c = '\x0c' := by
      simpa [pyWS] using hws
    rcases this with rfl | rfl | rfl | rfl | rfl | rfl <;>
      exact absurd h (by decide)

/-- `parseCore` rejects the empty string (needed to know an accepted
value field is nonempty). -/
theorem parseCore_nil : parseCore ([] : List Char) = none := by decide

/-- A string without the separator splits into itself alone. -/
theorem pySplit_of_not_mem {sep : Char} {s : List Char}
    (h : ∀ c ∈ s, c ≠ sep) : pySplit sep s = [s] := by
  induction s with
  | nil => rfl
  | cons c cs ih =>
    rw [pySplit, if_neg (h c (List.mem_cons_self c cs)),
      ih fun x hx => h x (List.mem_cons_of_mem c hx)]

/-- Splitting at the first separator occurrence. -/
theorem pySplit_append {sep : Char} {a : List Char} (b : List Char)
    (h : ∀ c ∈ a, c ≠ sep) :
    pySplit sep (a ++ sep :: b) = a :: pySplit sep b := by
  induction a with
  | nil => simp [pySplit]
  | cons c cs ih =>
    rw [List.cons_append, pySplit,
      if_neg (h c (List.mem_cons_self c cs)),
      ih fun x hx => h x (List.mem_cons_of_mem c hx)]

/-- `dropWhile` is the identity when no character satisfies the
predicate. -/
theorem dropWhile_eq_self {p : Char → Bool} {s : List Char}
    (h : ∀ c ∈ s, p c = false) : s.dropWhile p = s := by
  cases s with
  | nil => rfl
  | cons c cs =>
    rw [List.dropWhile_cons, if_neg]
    simp [h c (List.mem_cons_self c cs)]

/-- `dropWhile` over a prefix of satisfying characters. -/
theorem dropWhile_append_all {p : Char → Bool} {t : List Char}
    (l : List Char) (h : ∀ c ∈ t, p c = true) :
    (t ++ l).dropWhile p = l.dropWhile p := by
  induction t with
  | nil => rfl
  | cons c cs ih =>
    rw [List.cons_append, List.dropWhile_cons,
      if_pos (by simp [h c (List.mem_cons_self c cs)]),
      ih fun x hx => h x (List.mem_cons_of_mem c hx)]

/-- Stripping from the right removes a wholly-satisfying suffix and
stops at the last character of the remainder. -/
theorem pyRstripP_append {p : Char → Bool} {s t : List Char}
    (ht : ∀ c ∈ t, p c = true) (hs : ∀ c ∈ s, p c = false) :
    pyRstripP p (s ++ t) = s := by
  rw [pyRstripP, List.reverse_append,
    dropWhile_append_all _ (fun c hc => ht c (List.mem_reverse.mp hc)),
    dropWhile_eq_self (fun c hc => hs c (List.mem_reverse.mp hc)),
    List.reverse_reverse]

/-- `pyRstripP` is the identity when no character satisfies the
predicate. -/
theorem pyRstripP_eq_self {p : Char → Bool} {s : List Char}
    (h : ∀ c ∈ s, p c = false) : pyRstripP p s = s := by
  rw [pyRstripP, dropWhile_eq_self (fun c hc => h c (List.mem_reverse.mp hc)),
    List.reverse_reverse]

/-- `strip()` is the identity on a string without whitespace. -/
theorem pyStrip_eq_self {s : List Char} (h : ∀ c ∈ s, pyWS c = false) :
    pyStrip s = s := by
  rw [pyStrip, dropWhile_eq_self h, pyRstripP_eq_self h]

/-- `strip()` of a leading space followed by a whitespace-free head and
a whitespace-free final character: only the space goes.  The middle may
contain spaces (the distance field ends in `" mm"` whose inner space
must survive). -/
theorem pyStrip_space_wrap (c0 cl : Char) (mid : List Char)
    (h0 : pyWS c0 = false) (hl : pyWS cl = false) :
    pyStrip (' ' :: (c0 :: mid ++ [cl])) = c0 :: mid ++ [cl] := by
  rw [pyStrip, List.dropWhile_cons, if_pos (by decide), List.cons_append,
    List.dropWhile_cons, if_neg (by simp [h0]), pyRstripP]
  simp [List.dropWhile_cons, hl]

/-- A field without a colon makes the whole parse fail (the
`split(':')[1]` raises `IndexError`). -/
theorem extractField_no_colon {piece unitChars : List Char}
    (h : ∀ c ∈ piece, c ≠ ':') : extractField piece unitChars = none := by
  rw [extractField, pySplit_of_not_mem h]
  rfl

/-- The angle field of a well-formed line is recovered exactly: the
colon split isolates `" <sa>°"`, `strip()` removes the space, and
`rstrip('°')` removes the degree sign. -/
theorem extractField_angle {sa : List Char} (hne : sa ≠ [])
    (h : ∀ c ∈ sa, cleanChar c) :
    extractField ("Angle: ".toList ++ sa ++ ['°']) ['°'] = parseCore sa := by
  obtain ⟨c0, sa', rfl⟩ := List.exists_cons_of_ne_nil hne
  have hshape : ("Angle: ".toList ++ (c0 :: sa') ++ ['°'] : List Char) =
      "Angle".toList ++ ':' :: (' ' :: ((c0 :: sa') ++ ['°'])) := rfl
  have hsplit : pySplit ':' ("Angle: ".toList ++ (c0 :: sa') ++ ['°']) =
      ["Angle".toList, ' ' :: ((c0 :: sa') ++ ['°'])] := by
    rw [hshape, pySplit_append _ (by decide), pySplit_of_not_mem ?_]
    intro c hc
    rcases List.mem_cons.mp hc with rfl | hc
    · decide
    · rcases List.mem_append.mp hc with hc | hc
      · exact (h c hc).2.1
      · simp only [List.mem_singleton] at hc
        subst hc
        decide
  rw [extractField, hsplit]
  have hstrip : pyStrip (' ' :: ((c0 :: sa') ++ ['°'])) =
      (c0 :: sa') ++ ['°'] := by
    have := pyStrip_space_wrap c0 '°' sa'
      (h c0 (List.mem_cons_self c0 sa')).2.2.2.2 (by decide)
    simpa using this
  have hrstrip : pyRstrip ['°'] ((c0 :: sa') ++ ['°']) = c0 :: sa' := by
    rw [pyRstrip]
    refine pyRstripP_append (by decide) ?_
    intro c hc
    have : c ≠ '°' := (h c hc).2.2.1
    simpa using this
  simp only [List.get?]
  rw [hstrip, hrstrip, pyFloat,
    pyStrip_eq_self fun c hc => (h c hc).2.2.2.2]

/-- The distance field of a well-formed line is recovered exactly: the
colon split isolates `" <sd> mm"`, `strip()` removes the leading space
only (the last character `m` is not whitespace), and `rstrip(' mm')`
removes the trailing `'m'`, `'m'`, `' '`. -/
theorem extractField_distance {sd : List Char} (hne : sd ≠ [])
    (h : ∀ c ∈ sd, cleanChar c) :
    extractField (" Distance: ".toList ++ sd ++ " mm".toList) [' ', 'm'] =
      parseCore sd := by
  obtain ⟨c0, sd', rfl⟩ := List.exists_cons_of_ne_nil hne
  have hshape : (" Distance: ".toList ++ (c0 :: sd') ++ " mm".toList :
      List Char) =
      " Distance".toList ++ ':' :: (' ' :: ((c0 :: sd') ++ " mm".toList)) :=
    rfl
  have hsplit : pySplit ':'
      (" Distance: ".toList ++ (c0 :: sd') ++ " mm".toList) =
      [" Distance".toList, ' ' :: ((c0 :: sd') ++ " mm".toList)] := by
    rw [hshape, pySplit_append _ (by decide), pySplit_of_not_mem ?_]
    intro c hc
    rcases List.mem_cons.mp hc with rfl | hc
    · decide
    · rcases List.mem_append.mp hc with hc | hc
      · exact (h c hc).2.1
      · exact (by decide : ∀ x ∈ " mm".toList, x ≠ ':') c hc
  rw [extractField, hsplit]
  have hstrip : pyStrip (' ' :: ((c0 :: sd') ++ " mm".toList)) =
      (c0 :: sd') ++ " mm".toList := by
    have := pyStrip_space_wrap c0 'm' (sd' ++ [' ', 'm'])
      (h c0 (List.mem_cons_self c0 sd')).2.2.2.2 (by decide)
    have hassoc : (c0 :: (sd' ++ [' ', 'm']) ++ ['m'] : List Char) =
        (c0 :: sd') ++ " mm".toList := by
      simp [List.append_assoc]
    rw [hassoc] at this
    exact this
  have hrstrip : pyRstrip [' ', 'm'] ((c0 :: sd') ++ " mm".toList) =
      c0 :: sd' := by
    rw [pyRstrip]
    refine pyRstripP_append (by decide) ?_
    intro c hc
    have h1 : c ≠ 'm' := (h c hc).2.2.2.1
    have h2 : c ≠ ' ' := by
      intro hsp
      have := (h c hc).2.2.2.2
      rw [hsp] at this
      exact absurd this (by decide)
    simpa using ⟨h2, h1⟩
  simp only [List.get?]
  rw [hstrip, hrstrip, pyFloat,
    pyStrip_eq_self fun c hc => (h c hc).2.2.2.2]

/-- On a line exactly of the documented form, the parser returns exactly
the two `float()` conversions of the value fields. -/
theorem parse_mkLine {sa sd : List Char} (hna : sa ≠ []) (hnd : sd ≠ [])
    (ha : ∀ c ∈ sa, cleanChar c) (hd : ∀ c ∈ sd, cleanChar c) :
    parse_arduino_data (mkLine sa sd) =
      (parseCore sa).bind fun a => (parseCore sd).map fun d => (a, d) := by
  have hA : ∀ c ∈ "Angle: ".toList ++ sa ++ ['°'], c ≠ ',' := by
    intro c hc
    rcases List.mem_append.mp hc with hc | hc
    · rcases List.mem_append.mp hc with hc | hc
      · exact (by decide : ∀ x ∈ "Angle: ".toList, x ≠ ',') c hc
      · exact (ha c hc).1
    · exact (by decide : ∀ x ∈ ['°'], x ≠ ',') c hc
  have hB : ∀ c ∈ " Distance: ".toList ++ sd ++ " mm".toList, c ≠ ',' := by
    intro c hc
    rcases List.mem_append.mp hc with hc | hc
    · rcases List.mem_append.mp hc with hc | hc
      · exact (by decide : ∀ x ∈ " Distance: ".toList, x ≠ ',') c hc
      · exact (hd c hc).1
    · exact (by decide : ∀ x ∈ " mm".toList, x ≠ ',') c hc
  have hsplit : pySplit ',' (mkLine sa sd) =
      ["Angle: ".toList ++ sa ++ ['°'],
        " Distance: ".toList ++ sd ++ " mm".toList] := by
    rw [mkLine, pySplit_append _ hA, pySplit_of_not_mem hB]
  rw [parse_arduino_data, hsplit]
  simp only [List.get?]
  rw [extractField_angle hna ha]
  cases hpa : parseCore sa with
  | none => rfl
  | some a =>
    dsimp only
    rw [extractField_distance hnd hd]
    cases hpd : parseCore sd with
    | none => rfl
    | some d => rfl

/-- C1: the line parser is exact on well-formed lines and fails without
partial results on the claimed malformations.  (1) For every line of the
form `Angle: <A>°, Distance: <D> mm` whose value fields `float()`
accepts, the parser returns exactly that pair of values.  (2) A line
without a comma fails.  (3) A line whose first comma-field has no colon
fails.  (4) A line whose second comma-field has no colon fails.  (5) A
line of the documented shape whose value field is not numeric (not
accepted by the `float()` grammar) fails.  In every failure case the
result is the single value `none` — the model of `(None, None)` — so no
partial result escapes. -/
theorem c1_line_parse :
    (∀ (sa sd : List Char) (a d : PyFloat),
      parseCore sa = some a → parseCore sd = some d →
      parse_arduino_data (mkLine sa sd) = some (a, d)) ∧
    (∀ line : List Char, (∀ c ∈ line, c ≠ ',') →
      parse_arduino_data line = none) ∧
    (∀ la lb : List Char, (∀ c ∈ la, c ≠ ',') → (∀ c ∈ la, c ≠ ':') →
      parse_arduino_data (la ++ ',' :: lb) = none) ∧
    (∀ la lb : List Char, (∀ c ∈ la, c ≠ ',') → (∀ c ∈ lb, c ≠ ',') →
      (∀ c ∈ lb, c ≠ ':') →
      parse_arduino_data (la ++ ',' :: lb) = none) ∧
    (∀ sa sd : List Char, sa ≠ [] → sd ≠ [] →
      (∀ c ∈ sa, cleanChar c) → (∀ c ∈ sd, cleanChar c) →
      (parseCore sa = none ∨ parseCore sd = none) →
      parse_arduino_data (mkLine sa sd) = none) := by
  refine ⟨?_, ?_, ?_, ?_, ?_⟩
  · intro sa sd a d hpa hpd
    have hna : sa ≠ [] := by
      intro hnil; rw [hnil, parseCore_nil] at hpa; exact absurd hpa (by simp)
    have hnd : sd ≠ [] := by
      intro hnil; rw [hnil, parseCore_nil] at hpd; exact absurd hpd (by simp)
    have ha : ∀ c ∈ sa, cleanChar c :=
      fun c hc => goodChar_clean (parseCore_good hpa c hc)
    have hd2 : ∀ c ∈ sd, cleanChar c :=
      fun c hc => goodChar_clean (parseCore_good hpd c hc)
    rw [parse_mkLine hna hnd ha hd2, hpa, hpd]
    rfl
  · intro line h
    rw [parse_arduino_data, pySplit_of_not_mem h]
    simp only [List.get?]
    cases hef : extractField line ['°'] with
    | none => rfl
    | some a => rfl
  · intro la lb hcomma hcolon
    rw [parse_arduino_data, pySplit_append _ hcomma]
    simp only [List.get?]
    rw [extractField_no_colon hcolon]
  · intro la lb hca hcb hcolon
    rw [parse_arduino_data, pySplit_append _ hca, pySplit_of_not_mem hcb]
    simp only [List.get?]
    cases hef : extractField la ['°'] with
    | none => rfl
    | some a =>
      dsimp only
      rw [extractField_no_colon hcolon]
  · intro sa sd hna hnd ha hd hfail
    rw [parse_mkLine hna hnd ha hd]
    rcases hfail with hfail | hfail
    · rw [hfail]
      rfl
    · cases hpa : parseCore sa with
      | none => rfl
      | some a =>
        dsimp only [Option.bind]
        rw [hfail]
        rfl

/-- Witness for C1: each conjunct applied to concrete lines.  The
success case parses `Angle: 150°, Distance: 800 mm`; the failure cases
are a missing comma, a missing colon in either field, and the
non-numeric angle field `9x`.  The final conjunct checks that `mkLine`
builds exactly the documented text. -/
theorem c1_witness :
    (parseCore "150".toList = some (.finite 150) ∧
      parseCore "800".toList = some (.finite 800) ∧
      parse_arduino_data (mkLine "150".toList "800".toList) =
        some (.finite 150, .finite 800)) ∧
    ((∀ c ∈ "Angle: 90° Distance: 800 mm".toList, c ≠ ',') ∧
      parse_arduino_data "Angle: 90° Distance: 800 mm".toList = none) ∧
    ((∀ c ∈ "Angle 90°".toList, c ≠ ':') ∧
      parse_arduino_data ("Angle 90°".toList ++ ',' ::
        " Distance: 800 mm".toList) = none) ∧
    ((∀ c ∈ " Distance 800 mm".toList, c ≠ ':') ∧
      parse_arduino_data ("Angle: 90°".toList ++ ',' ::
        " Distance 800 mm".toList) = none) ∧
    (parseCore "9x".toList = none ∧
      parse_arduino_data (mkLine "9x".toList "800".toList) = none) ∧
    mkLine "150".toList "800".toList =
      "Angle: 150°, Distance: 800 mm".toList :=
  ⟨⟨by decide, by decide,
    c1_line_parse.1 "150".toList "800".toList _ _ (by decide) (by decide)⟩,
   ⟨by decide, c1_line_parse.2.1 _ (by decide)⟩,
   ⟨by decide, c1_line_parse.2.2.1 "Angle 90°".toList " Distance: 800 mm".toList
     (by decide) (by decide)⟩,
   ⟨by decide, c1_line_parse.2.2.2.1 "Angle: 90°".toList
     " Distance 800 mm".toList (by decide) (by decide) (by decide)⟩,
   ⟨by decide, c1_line_parse.2.2.2.2 "9x".toList "800".toList (by decide)
     (by decide) (by decide) (by decide) (Or.inl (by decide))⟩,
   by decide⟩

end Lidar
